import Mathlib

/-
Verification development for the GafferVDB VDBObject grid-collection object
(src/src/GafferVDB/VDBObject.cpp).

The C++ object holds an ordered sequence of shared pointers to named
volumetric grids (openvdb GridPtrVec) plus the IECore::VisibleRenderable
base-class state.  We embed it shallowly:

  * a Grid carries the data the member functions observe: its name, the
    byte streams produced by writeTopology / writeBuffers / writeTransform
    (topology, buffers, plus a per-axis affine index-to-world transform),
    its metadata map (an ordered association list with the openvdb type
    tags), a residency flag for the lazily loaded voxel buffers, and the
    statistics the external library derives for addStatsMetadata;
  * a GridPtr pairs a Grid with an address, so that the shared-pointer
    comparisons of the C++ (std::vector<GridBase::Ptr> operator==) and
    deepCopyGrid's fresh allocations are represented faithfully;
  * a VDBObject is the base-class state (a Nat standing for the
    VisibleRenderable data) together with the grid sequence;
  * machinery of the external libraries (IECore base-class equality, hash,
    copy, save and load, the openvdb transform and statistics attachment)
    is not part of this repository; those definitions are modelled from
    the specification and are marked as such.

MurmurHash accumulation is modelled as the exact trace of appended chunks,
so determinism and order sensitivity become statements about that trace.
-/

structure Vec3 (α : Type) where
  x : α
  y : α
  z : α
deriving DecidableEq, Repr

/-- Modelled from the spec: the external grid library's index-to-world
transform, taken as a per-axis affine map (scale and translate). -/
structure Transform where
  scale : Vec3 ℚ
  translate : Vec3 ℚ
deriving DecidableEq, Repr

/-- An openvdb metadata value with its dynamic type tag: the four kinds the
code supports ("string", "int64", "bool", "vec3i") plus any other tag. -/
inductive MetaValue where
  | str (s : String)
  | int64 (n : Int)
  | boolean (b : Bool)
  | vec3i (v : Vec3 Int)
  | other (typeTag : String)
deriving DecidableEq, Repr

/-- The dynamic type name of a metadata value, as openvdb reports it. -/
def MetaValue.typeName : MetaValue → String
  | .str _ => "string"
  | .int64 _ => "int64"
  | .boolean _ => "bool"
  | .vec3i _ => "vec3i"
  | .other t => t

/-- One volumetric grid as observed by VDBObject.cpp: name, the streamed
serialization parts (topology, buffers, transform), the metadata map
(ordered association list), the residency flag of the lazily loaded
buffers, and the statistics the library computes for addStatsMetadata. -/
structure Grid where
  name : String
  topology : List Nat
  buffers : List Nat
  gtransform : Transform
  meta : List (String × MetaValue)
  buffersResident : Bool
  statBBoxMin : Vec3 Int
  statBBoxMax : Vec3 Int
  statVoxelCount : Int
  statMemBytes : Int
deriving DecidableEq, Repr

/-- A shared pointer to a grid: the address models pointer identity
(std::shared_ptr operator== compares stored pointers). -/
structure GridPtr where
  addr : Nat
  grid : Grid
deriving DecidableEq, Repr

/-- The VDBObject state: VisibleRenderable base-class data (opaque, a Nat)
and the ordered grid sequence m_grids. -/
structure VDBObject where
  base : Nat
  grids : List GridPtr
deriving DecidableEq, Repr

/-- The default-constructed VDBObject: empty grid sequence. -/
def VDBObject.empty : VDBObject := ⟨0, []⟩

/-- An IECore::Object handed to isEqualTo or copyFrom: either a VDBObject
or an object of some other concrete kind (runTimeCast to VDBObject fails
on the latter). -/
inductive IEObject where
  | vdb (v : VDBObject)
  | other (base : Nat)
deriving DecidableEq, Repr

/-- The base-class (VisibleRenderable) state of any object. -/
def IEObject.baseState : IEObject → Nat
  | .vdb v => v.base
  | .other b => b

/-- The loop body of VDBObject::findGrid: linear scan, first name match. -/
def findGridAux : List GridPtr → String → Option GridPtr
  | [], _ => none
  | g :: rest, n => if g.grid.name = n then some g else findGridAux rest n

/-- VDBObject::findGrid — first grid with the given name, none if absent. -/
def VDBObject.findGrid (v : VDBObject) (name : String) : Option GridPtr :=
  findGridAux v.grids name

/-- VDBObject::gridNames — the names in container order. -/
def VDBObject.gridNames (v : VDBObject) : List String :=
  v.grids.map (fun g => g.grid.name)

/-- The loop of VDBObject::removeGrid: erase the first grid whose name
matches and return; no match leaves the sequence unchanged. -/
def removeFirst : List GridPtr → String → List GridPtr
  | [], _ => []
  | g :: rest, n => if g.grid.name = n then rest else g :: removeFirst rest n

/-- VDBObject::removeGrid. -/
def VDBObject.removeGrid (v : VDBObject) (name : String) : VDBObject :=
  { v with grids := removeFirst v.grids name }

/-- VDBObject::insertGrid — removeGrid on the new grid's name, then
push_back of the new grid at the end of the sequence. -/
def VDBObject.insertGrid (v : VDBObject) (g : GridPtr) : VDBObject :=
  let v' := v.removeGrid g.grid.name
  { v' with grids := v'.grids ++ [g] }

/-- GridBase::readNonresidentBuffers — all voxel buffers become resident. -/
def readNonresidentBuffers (g : Grid) : Grid :=
  { g with buffersResident := true }

/-- Apply readNonresidentBuffers through the shared pointer returned by
findGrid: the first grid of the given name is updated in place. -/
def markFirstResident : List GridPtr → String → List GridPtr
  | [], _ => []
  | g :: rest, n =>
    if g.grid.name = n then { g with grid := readNonresidentBuffers g.grid } :: rest
    else g :: markFirstResident rest n

/-- VDBObject::forceRead — findGrid then an unchecked dereference of the
result; `none` models the fatal null-pointer dereference when the name is
absent. -/
def VDBObject.forceRead (v : VDBObject) (name : String) : Option VDBObject :=
  match v.findGrid name with
  | none => none
  | some _ => some { v with grids := markFirstResident v.grids name }

/-- Modelled from the spec: base-class (IECore VisibleRenderable) equality
between this VDBObject and another object — same concrete kind and equal
base-class data. -/
def baseIsEqualTo (v : VDBObject) (other : IEObject) : Bool :=
  match other with
  | .vdb w => v.base == w.base
  | .other _ => false

/-- Modelled from the spec: IECore Object::isNotEqualTo is the negation of
isEqualTo. -/
def baseIsNotEqualTo (v : VDBObject) (other : IEObject) : Bool :=
  !(baseIsEqualTo v other)

/-- VDBObject::isEqualTo, exactly as coded: it first tests
`!VisibleRenderable::isNotEqualTo(other)` and returns false when that
holds (note the inverted polarity present in the source), then runTimeCast
to VDBObject (false when the cast fails), then compares the two
GridPtrVec values — a std::vector of shared pointers, whose operator==
compares the stored pointers elementwise. -/
def VDBObject.isEqualTo (v : VDBObject) (other : IEObject) : Bool :=
  if !(baseIsNotEqualTo v other) then false
  else
    match other with
    | .other _ => false
    | .vdb w => decide (v.grids.map GridPtr.addr = w.grids.map GridPtr.addr)

/-- A chunk appended to a MurmurHash accumulator: the hash is modelled as
the exact trace of appended chunks. -/
inductive Chunk where
  | base (b : Nat)
  | digest (bytes : List Nat)
deriving DecidableEq, Repr

/-- An injective byte encoding of a rational, used to serialize the
transform. -/
def ratBytes (q : ℚ) : List Nat :=
  [if q.num < 0 then 1 else 0, q.num.natAbs, q.den]

/-- The byte stream GridBase::writeTransform produces for our per-axis
affine transform model. -/
def transformBytes (t : Transform) : List Nat :=
  ratBytes t.scale.x ++ ratBytes t.scale.y ++ ratBytes t.scale.z ++
    ratBytes t.translate.x ++ ratBytes t.translate.y ++ ratBytes t.translate.z

/-- The byte stream the per-grid MurmurHashSink receives in
VDBObject::hash: writeTopology, then writeBuffers, then writeTransform.
The grid name and metadata are not part of this stream. -/
def gridSerialBytes (g : Grid) : List Nat :=
  g.topology ++ g.buffers ++ transformBytes g.gtransform

/-- Modelled from the spec: VisibleRenderable::hash appends the base-class
contribution to the accumulator. -/
def visibleRenderableHash (b : Nat) (h : List Chunk) : List Chunk :=
  h ++ [Chunk.base b]

/-- VDBObject::hash — base-class hash, then for every grid in order a
sub-hash of its serialized topology, buffers and transform is appended to
the accumulator. -/
def VDBObject.hash (v : VDBObject) (h : List Chunk) : List Chunk :=
  v.grids.foldl (fun acc gp => acc ++ [Chunk.digest (gridSerialBytes gp.grid)])
    (visibleRenderableHash v.base h)

/-- GridBase::deepCopyGrid — a full copy of the grid at a fresh address. -/
def deepCopyGrid (gp : GridPtr) (addr : Nat) : GridPtr :=
  ⟨addr, gp.grid⟩

/-- Deep copies of a grid sequence at consecutive fresh addresses, one per
loop iteration of VDBObject::copyFrom. -/
def deepCopies : List GridPtr → Nat → List GridPtr
  | [], _ => []
  | g :: rest, a => deepCopyGrid g a :: deepCopies rest (a + 1)

/-- Consecutive addresses handed out by the allocator. -/
def addrsFrom : Nat → Nat → List Nat
  | _, 0 => []
  | a, n + 1 => a :: addrsFrom (a + 1) n

/-- VDBObject::copyFrom — the base-class copy applies first (modelled from
the spec: VisibleRenderable::copyFrom copies the base-class state); when
runTimeCast to VDBObject fails the function returns silently; otherwise a
deep copy of every source grid is pushed onto the existing sequence. The
alloc parameter supplies the fresh addresses of the copies. -/
def VDBObject.copyFrom (v : VDBObject) (other : IEObject) (alloc : Nat) : VDBObject :=
  let v1 : VDBObject := { v with base := other.baseState }
  match other with
  | .other _ => v1
  | .vdb src => { v1 with grids := v1.grids ++ deepCopies src.grids alloc }

/-- Errors surfaced by the embedded operations. -/
inductive VDBError where
  | notImplemented (what : String)
deriving DecidableEq, Repr

/-- A base-class persistence step, recorded so that "the base-class
save/load step has been invoked" is observable. -/
inductive BaseStep where
  | saveBase (base ctx : Nat)
  | loadBase (base ctx : Nat)
deriving DecidableEq, Repr

/-- VDBObject::save — VisibleRenderable::save (modelled from the spec as a
recorded base step), then an unconditional NotImplementedException. -/
def VDBObject.save (v : VDBObject) (ctx : Nat) : List BaseStep × Except VDBError Unit :=
  ([BaseStep.saveBase v.base ctx], Except.error (VDBError.notImplemented "VDBObject::save"))

/-- VDBObject::load — VisibleRenderable::load (modelled from the spec: the
base-class state is restored from the context), then an unconditional
NotImplementedException; the grid sequence is never touched. -/
def VDBObject.load (v : VDBObject) (ctx : Nat) :
    VDBObject × List BaseStep × Except VDBError Unit :=
  ({ v with base := ctx },
   [BaseStep.loadBase v.base ctx],
   Except.error (VDBError.notImplemented "VDBObject::load"))

/-- An axis-aligned box over the rationals. -/
structure Box3 where
  bmin : Vec3 ℚ
  bmax : Vec3 ℚ
deriving DecidableEq, Repr

/-- GridBase::metaValue with a Vec3i target type: LookupError when the key
is absent, TypeError when the stored type differs. -/
def getMetaVec3i (g : Grid) (k : String) : Except String (Vec3 Int) :=
  match g.meta.lookup k with
  | some (MetaValue.vec3i v) => Except.ok v
  | some _ => Except.error ("TypeError: " ++ k)
  | none => Except.error ("LookupError: " ++ k)

/-- One axis of the index-to-world box map (modelled from the spec as a
per-axis affine map applied to the interval endpoints, re-sorted). -/
def mapAxis (s t lo hi : ℚ) : ℚ × ℚ :=
  (min (s * lo + t) (s * hi + t), max (s * lo + t) (s * hi + t))

/-- Modelled from the spec: math::Transform::indexToWorld applied to a
box. -/
def indexToWorldBox (tr : Transform) (b : Box3) : Box3 :=
  let px := mapAxis tr.scale.x tr.translate.x b.bmin.x b.bmax.x
  let py := mapAxis tr.scale.y tr.translate.y b.bmin.y b.bmax.y
  let pz := mapAxis tr.scale.z tr.translate.z b.bmin.z b.bmax.z
  ⟨⟨px.1, py.1, pz.1⟩, ⟨px.2, py.2, pz.2⟩⟩

/-- The file-local worldBound helper of VDBObject.cpp: read the
META_FILE_BBOX_MIN / META_FILE_BBOX_MAX metadata (errors propagate), pad
by the 0.5 default margin on each side, then transform the padded
index-space box through the grid's index-to-world transform. -/
def worldBound (g : Grid) : Except String Box3 := do
  let mn ← getMetaVec3i g "file_bbox_min"
  let mx ← getMetaVec3i g "file_bbox_max"
  let lo : Vec3 ℚ := ⟨(mn.x : ℚ) - 1/2, (mn.y : ℚ) - 1/2, (mn.z : ℚ) - 1/2⟩
  let hi : Vec3 ℚ := ⟨(mx.x : ℚ) + 1/2, (mx.y : ℚ) + 1/2, (mx.z : ℚ) + 1/2⟩
  Except.ok (indexToWorldBox g.gtransform ⟨lo, hi⟩)

/-- Imath::Box3f::extendBy on the running box: `none` is the freshly
constructed empty box. -/
def extendBy : Option Box3 → Box3 → Option Box3
  | none, b => some b
  | some c, b =>
    some ⟨⟨min c.bmin.x b.bmin.x, min c.bmin.y b.bmin.y, min c.bmin.z b.bmin.z⟩,
          ⟨max c.bmax.x b.bmax.x, max c.bmax.y b.bmax.y, max c.bmax.z b.bmax.z⟩⟩

/-- The loop of VDBObject::bound: extend the combined box by each grid's
world bound in order; a failing worldBound aborts with its error. -/
def boundAux : List GridPtr → Option Box3 → Except String (Option Box3)
  | [], acc => Except.ok acc
  | g :: rest, acc => do
    let gb ← worldBound g.grid
    boundAux rest (extendBy acc gb)

/-- VDBObject::bound. -/
def VDBObject.bound (v : VDBObject) : Except String (Option Box3) :=
  boundAux v.grids none

/-- The world bounds of every grid in order, errors surfacing — the
spec-side formulation used to state that bound() is the union of the
per-grid bounds. -/
def worldBounds : List GridPtr → Except String (List Box3)
  | [] => Except.ok []
  | g :: rest => do
    let b ← worldBound g.grid
    let bs ← worldBounds rest
    Except.ok (b :: bs)

/-- The spec-side statement of bound(): the union (iterated extendBy over
the empty box) of the per-grid world bounds. -/
def specBound (v : VDBObject) : Except String (Option Box3) :=
  (worldBounds v.grids).map (fun bs => bs.foldl extendBy none)

/-- Box containment, componentwise. -/
def boxInside (inner outer : Box3) : Prop :=
  outer.bmin.x ≤ inner.bmin.x ∧ outer.bmin.y ≤ inner.bmin.y ∧
  outer.bmin.z ≤ inner.bmin.z ∧ inner.bmax.x ≤ outer.bmax.x ∧
  inner.bmax.y ≤ outer.bmax.y ∧ inner.bmax.z ≤ outer.bmax.z

instance (inner outer : Box3) : Decidable (boxInside inner outer) := by
  unfold boxInside; infer_instance

/-- The IECore Data values the metadata conversion produces. -/
inductive CortexData where
  | stringData (s : String)
  | int64Data (n : Int)
  | boolData (b : Bool)
  | v3iData (v : Vec3 Int)
deriving DecidableEq, Repr

/-- The closed type switch of VDBObject::metadata: the four supported
metadata kinds convert, every other type tag is unsupported. -/
def convertMeta : MetaValue → Option CortexData
  | MetaValue.str s => some (CortexData.stringData s)
  | MetaValue.int64 n => some (CortexData.int64Data n)
  | MetaValue.boolean b => some (CortexData.boolData b)
  | MetaValue.vec3i v => some (CortexData.v3iData v)
  | MetaValue.other _ => none

/-- The warning VDBObject::metadata emits for an unsupported entry (type
name, then key, as in the source's format string). -/
def metaWarning (e : String × MetaValue) : String :=
  e.2.typeName ++ " has unsupported metadata type: " ++ e.1

/-- CompoundObject members()[key] = value — insert or overwrite in an
association list. -/
def upsert : List (String × CortexData) → String → CortexData → List (String × CortexData)
  | [], k, d => [(k, d)]
  | (k', d') :: rest, k, d =>
    if k' = k then (k', d) :: rest else (k', d') :: upsert rest k d

/-- Insert or overwrite a metadata entry of a grid's MetaMap. -/
def upsertMeta : List (String × MetaValue) → String → MetaValue → List (String × MetaValue)
  | [], k, d => [(k, d)]
  | (k', d') :: rest, k, d =>
    if k' = k then (k', d) :: rest else (k', d') :: upsertMeta rest k d

/-- Modelled from the spec: GridBase::addStatsMetadata attaches the
auto-computed statistics metadata (index-space bounding box, voxel count
and memory footprint) to the grid's metadata map. -/
def addStatsMetadata (g : Grid) : Grid :=
  let m1 := upsertMeta g.meta "file_bbox_min" (MetaValue.vec3i g.statBBoxMin)
  let m2 := upsertMeta m1 "file_bbox_max" (MetaValue.vec3i g.statBBoxMax)
  let m3 := upsertMeta m2 "file_voxel_count" (MetaValue.int64 g.statVoxelCount)
  { g with meta := upsertMeta m3 "file_mem_bytes" (MetaValue.int64 g.statMemBytes) }

/-- One iteration of the metadata conversion loop: a supported entry is
stored in the result mapping, an unsupported one emits a warning. -/
def metaStep (acc : List (String × CortexData) × List String) (e : String × MetaValue) :
    List (String × CortexData) × List String :=
  match convertMeta e.2 with
  | some d => (upsert acc.1 e.1 d, acc.2)
  | none => (acc.1, acc.2 ++ [metaWarning e])

/-- VDBObject::metadata — none (a null CompoundObjectPtr) for an unknown
name; otherwise addStatsMetadata runs on the found grid and every
metadata entry goes through the closed type switch. The emitted warnings
are returned alongside. -/
def VDBObject.metadata (v : VDBObject) (name : String) :
    Option (List (String × CortexData)) × List String :=
  match v.findGrid name with
  | none => (none, [])
  | some gp =>
    let g := addStatsMetadata gp.grid
    let r := g.meta.foldl metaStep ([], [])
    (some r.1, r.2)

/-- GridBase::metaValue with an int64 target type, as memoryBuffer uses
it: none models the exception (LookupError or TypeError). -/
def getMetaInt64 (g : Grid) (k : String) : Option Int :=
  match g.meta.lookup k with
  | some (MetaValue.int64 n) => some n
  | _ => none

/-- The try block of VDBObject::memoryBuffer: fold the per-grid
"file_mem_bytes" values into the running total; the first failing grid
throws, leaving the total at the prefix sum (second component true means
the exception was caught). -/
def sumMemBytes : List GridPtr → Int → Int × Bool
  | [], acc => (acc, false)
  | g :: rest, acc =>
    match getMetaInt64 g.grid "file_mem_bytes" with
    | some n => sumMemBytes rest (acc + n)
    | none => (acc, true)

/-- An injective byte encoding of a string. -/
def stringBytes (s : String) : List Nat :=
  s.length :: s.toList.map Char.toNat

/-- Modelled from the spec: the external library's native stream
serialization of a grid sequence (openvdb::io::Stream::write), an opaque
byte encoding of each grid in order. -/
def serializeGrids (gs : List GridPtr) : List Nat :=
  gs.flatMap (fun gp => stringBytes gp.grid.name ++ gridSerialBytes gp.grid)

/-- The observable outcome of VDBObject::memoryBuffer: the byte count
passed to reserve, the warnings emitted, and the serialized contents. -/
structure MemoryBufferResult where
  reservedBytes : Int
  warnings : List String
  bytes : List Nat
deriving DecidableEq, Repr

/-- VDBObject::memoryBuffer — best-effort size estimate (a caught failure
leaves the partial sum and logs a warning), reserve, then stream
serialization of the grid sequence into the buffer. -/
def VDBObject.memoryBuffer (v : VDBObject) : MemoryBufferResult :=
  let est := sumMemBytes v.grids 0
  { reservedBytes := est.1
    warnings := if est.2 then ["Unable to estimate vdb size."] else []
    bytes := serializeGrids v.grids }

/-- The collection states reachable through the mutating interface:
default construction, insertGrid, removeGrid, and copyFrom from a
reachable source (or from an object of an incompatible kind). -/
inductive Reachable : VDBObject → Prop where
  | empty : Reachable VDBObject.empty
  | insert (g : GridPtr) {v : VDBObject} : Reachable v → Reachable (v.insertGrid g)
  | remove (n : String) {v : VDBObject} : Reachable v → Reachable (v.removeGrid n)
  | copyVdb (alloc : Nat) {v src : VDBObject} :
      Reachable v → Reachable src → Reachable (v.copyFrom (IEObject.vdb src) alloc)
  | copyOther (b alloc : Nat) {v : VDBObject} :
      Reachable v → Reachable (v.copyFrom (IEObject.other b) alloc)

deriving instance DecidableEq for Except

/-- The byte stream a grid pointer contributes to the hash. -/
def serialOf (gp : GridPtr) : List Nat :=
  gridSerialBytes gp.grid

theorem foldl_concat_map {α β : Type} (f : α → β) :
    ∀ (l : List α) (init : List β),
      l.foldl (fun acc a => acc ++ [f a]) init = init ++ l.map f := by
  intro l
  induction l with
  | nil => intro init; simp
  | cons a rest ih => intro init; simp [List.foldl_cons, ih]

theorem hash_trace (v : VDBObject) (h : List Chunk) :
    v.hash h = h ++ Chunk.base v.base ::
      v.grids.map (fun gp => Chunk.digest (serialOf gp)) := by
  simp [VDBObject.hash, visibleRenderableHash, foldl_concat_map, serialOf]

theorem digest_map_inj :
    ∀ (xs ys : List (List Nat)), xs.map Chunk.digest = ys.map Chunk.digest → xs = ys := by
  intro xs
  induction xs with
  | nil => intro ys hy; cases ys <;> simp_all
  | cons x rest ih =>
    intro ys hy
    cases ys with
    | nil => simp_all
    | cons y t =>
      simp only [List.map_cons, List.cons.injEq, Chunk.digest.injEq] at hy
      exact by simp [hy.1, ih t hy.2]

theorem hash_inj {v w : VDBObject} {h : List Chunk} (he : v.hash h = w.hash h) :
    v.base = w.base ∧ v.grids.map serialOf = w.grids.map serialOf := by
  rw [hash_trace, hash_trace] at he
  have h1 := List.append_cancel_left he
  simp only [List.cons.injEq, Chunk.base.injEq] at h1
  refine ⟨h1.1, ?_⟩
  have h2 := h1.2
  have h3 : (v.grids.map serialOf).map Chunk.digest = (w.grids.map serialOf).map Chunk.digest := by
    simpa [List.map_map, Function.comp] using h2
  exact digest_map_inj _ _ h3

theorem eq_of_perm_serial_eq {l l' : List GridPtr}
    (hp : l'.Perm l) (hm : l'.map serialOf = l.map serialOf)
    (hn : (l.map serialOf).Nodup) : l' = l := by
  have hlen : l'.length = l.length := hp.length_eq
  apply List.ext_getElem hlen
  intro i h1 h2
  have hml : i < (l'.map serialOf).length := by simpa using h1
  have hmr : i < (l.map serialOf).length := by simpa using h2
  have h3 : (l'.map serialOf)[i] = (l.map serialOf)[i] := by
    simp [hm]
  simp only [List.getElem_map] at h3
  have m1 : l'[i] ∈ l := hp.subset (List.getElem_mem h1)
  have m2 : l[i] ∈ l := List.getElem_mem h2
  exact List.inj_on_of_nodup_map hn m1 m2 h3

theorem deepCopies_map_grid : ∀ (l : List GridPtr) (a : Nat),
    (deepCopies l a).map GridPtr.grid = l.map GridPtr.grid := by
  intro l
  induction l with
  | nil => intro a; rfl
  | cons g rest ih => intro a; simp [deepCopies, deepCopyGrid, ih]

theorem deepCopies_map_serial : ∀ (l : List GridPtr) (a : Nat),
    (deepCopies l a).map serialOf = l.map serialOf := by
  intro l
  induction l with
  | nil => intro a; rfl
  | cons g rest ih => intro a; simp [deepCopies, deepCopyGrid, serialOf, ih]

theorem deepCopies_map_addr : ∀ (l : List GridPtr) (a : Nat),
    (deepCopies l a).map GridPtr.addr = addrsFrom a l.length := by
  intro l
  induction l with
  | nil => intro a; rfl
  | cons g rest ih => intro a; simp [deepCopies, deepCopyGrid, addrsFrom, ih]

theorem addrsFrom_ge : ∀ (n a x : Nat), x ∈ addrsFrom a n → a ≤ x := by
  intro n
  induction n with
  | zero => intro a x hx; simp [addrsFrom] at hx
  | succ m ih =>
    intro a x hx
    simp only [addrsFrom, List.mem_cons] at hx
    rcases hx with rfl | hx
    · exact Nat.le_refl x
    · exact Nat.le_trans (Nat.le_succ a) (ih (a + 1) x hx)

theorem drop_len_append {α : Type} (l₁ l₂ : List α) :
    (l₁ ++ l₂).drop l₁.length = l₂ := by
  induction l₁ with
  | nil => rfl
  | cons a rest ih => simp [ih]

/-- The name of the grid a pointer references. -/
def nameOf (gp : GridPtr) : String :=
  gp.grid.name

theorem removeFirst_sublist : ∀ (l : List GridPtr) (n : String),
    (removeFirst l n).Sublist l := by
  intro l n
  induction l with
  | nil => simp [removeFirst]
  | cons g rest ih =>
    by_cases hg : g.grid.name = n
    · simp only [removeFirst, if_pos hg]
      exact List.sublist_cons_self g rest
    · simp only [removeFirst, if_neg hg]
      exact List.Sublist.cons₂ g ih

theorem removeFirst_eq_of_not_mem : ∀ (l : List GridPtr) (n : String),
    n ∉ l.map nameOf → removeFirst l n = l := by
  intro l n
  induction l with
  | nil => intro _; rfl
  | cons g rest ih =>
    intro hne
    simp only [List.map_cons, List.mem_cons, nameOf] at hne
    push_neg at hne
    have h1 : ¬(g.grid.name = n) := fun he => hne.1 he.symm
    simp only [removeFirst, if_neg h1, ih hne.2]

theorem removeFirst_length : ∀ (l : List GridPtr) (n : String),
    n ∈ l.map nameOf → (removeFirst l n).length + 1 = l.length := by
  intro l n
  induction l with
  | nil => intro hm; simp at hm
  | cons g rest ih =>
    intro hm
    by_cases hg : g.grid.name = n
    · simp [removeFirst, if_pos hg]
    · simp only [List.map_cons, List.mem_cons, nameOf] at hm
      rcases hm with hm | hm
      · exact absurd hm.symm hg
      · simp only [removeFirst, if_neg hg, List.length_cons, ih hm]

theorem removeFirst_not_mem_names : ∀ (l : List GridPtr) (n : String),
    (l.map nameOf).Nodup → n ∉ (removeFirst l n).map nameOf := by
  intro l n
  induction l with
  | nil => intro _ hm; simp [removeFirst] at hm
  | cons g rest ih =>
    intro hnd hm
    have hnd' := hnd
    simp only [List.map_cons, List.nodup_cons] at hnd'
    by_cases hg : g.grid.name = n
    · simp only [removeFirst, if_pos hg] at hm
      have hng : nameOf g = n := by simp [nameOf, hg]
      exact hnd'.1 (by rw [hng]; exact hm)
    · simp only [removeFirst, if_neg hg, List.map_cons, List.mem_cons, nameOf] at hm
      rcases hm with hm | hm
      · exact hg hm.symm
      · exact ih hnd'.2 hm

theorem removeFirst_names_nodup : ∀ (l : List GridPtr) (n : String),
    (l.map nameOf).Nodup → ((removeFirst l n).map nameOf).Nodup := by
  intro l n hnd
  exact List.Nodup.sublist (List.Sublist.map nameOf (removeFirst_sublist l n)) hnd

theorem findGridAux_eq_none_iff : ∀ (l : List GridPtr) (n : String),
    findGridAux l n = none ↔ n ∉ l.map nameOf := by
  intro l n
  induction l with
  | nil => simp [findGridAux]
  | cons g rest ih =>
    by_cases hg : g.grid.name = n
    · simp [findGridAux, if_pos hg, nameOf, hg]
    · simp only [findGridAux, if_neg hg, List.map_cons, List.mem_cons, nameOf]
      rw [ih]
      constructor
      · intro h1 h2
        rcases h2 with h2 | h2
        · exact hg h2.symm
        · exact h1 h2
      · intro h1 h2
        exact h1 (Or.inr h2)

theorem findGridAux_append_left : ∀ (l₁ l₂ : List GridPtr) (n : String),
    (∀ x ∈ l₁, x.grid.name ≠ n) → findGridAux (l₁ ++ l₂) n = findGridAux l₂ n := by
  intro l₁ l₂ n
  induction l₁ with
  | nil => intro _; rfl
  | cons g rest ih =>
    intro hall
    have hg : g.grid.name ≠ n := hall g (List.mem_cons_self g rest)
    simp only [List.cons_append, findGridAux, if_neg hg]
    exact ih (fun x hx => hall x (List.mem_cons_of_mem g hx))

theorem markFirstResident_names : ∀ (l : List GridPtr) (n : String),
    (markFirstResident l n).map nameOf = l.map nameOf := by
  intro l n
  induction l with
  | nil => rfl
  | cons g rest ih =>
    by_cases hg : g.grid.name = n
    · simp [markFirstResident, if_pos hg, nameOf, readNonresidentBuffers]
    · simp [markFirstResident, if_neg hg, nameOf, ih]

theorem markFirstResident_find : ∀ (l : List GridPtr) (n : String) (gp : GridPtr),
    findGridAux l n = some gp →
      findGridAux (markFirstResident l n) n =
        some ⟨gp.addr, readNonresidentBuffers gp.grid⟩ := by
  intro l n
  induction l with
  | nil => intro gp h; simp [findGridAux] at h
  | cons g rest ih =>
    intro gp h
    by_cases hg : g.grid.name = n
    · simp only [findGridAux, if_pos hg, Option.some.injEq] at h
      subst h
      simp [markFirstResident, if_pos hg, findGridAux, readNonresidentBuffers, hg]
    · simp only [findGridAux, if_neg hg] at h
      simp only [markFirstResident, if_neg hg, findGridAux, if_neg hg]
      exact ih gp h

theorem gridNames_eq_map (v : VDBObject) : v.gridNames = v.grids.map nameOf := by
  rfl

theorem insertGrid_nodup (v : VDBObject) (g : GridPtr) (hnd : v.gridNames.Nodup) :
    (v.insertGrid g).gridNames.Nodup := by
  rw [gridNames_eq_map] at hnd ⊢
  show ((removeFirst v.grids g.grid.name ++ [g]).map nameOf).Nodup
  rw [List.map_append]
  rw [List.nodup_append]
  refine ⟨removeFirst_names_nodup v.grids g.grid.name hnd, List.nodup_singleton _, ?_⟩
  intro a ha hb
  simp only [List.map_cons, List.map_nil, List.mem_singleton] at hb
  subst hb
  have hng : nameOf g = g.grid.name := rfl
  rw [hng] at ha
  exact removeFirst_not_mem_names v.grids g.grid.name hnd ha

theorem removeGrid_nodup (v : VDBObject) (n : String) (hnd : v.gridNames.Nodup) :
    (v.removeGrid n).gridNames.Nodup := by
  rw [gridNames_eq_map] at hnd ⊢
  exact removeFirst_names_nodup v.grids n hnd

/-- The collection states reachable through default construction,
insertGrid and removeGrid alone (copyFrom excluded). -/
inductive ReachableNoCopy : VDBObject → Prop where
  | empty : ReachableNoCopy VDBObject.empty
  | insert (g : GridPtr) {v : VDBObject} :
      ReachableNoCopy v → ReachableNoCopy (v.insertGrid g)
  | remove (n : String) {v : VDBObject} :
      ReachableNoCopy v → ReachableNoCopy (v.removeGrid n)

theorem boundAux_eq_spec : ∀ (l : List GridPtr) (acc : Option Box3),
    boundAux l acc = (worldBounds l).map (fun bs => bs.foldl extendBy acc) := by
  intro l
  induction l with
  | nil => intro acc; rfl
  | cons g rest ih =>
    intro acc
    simp only [boundAux, worldBounds, bind, Except.bind]
    cases hwb : worldBound g.grid with
    | error e => simp [Except.map]
    | ok gb =>
      dsimp only
      rw [ih (extendBy acc gb)]
      cases hws : worldBounds rest with
      | error e => simp [Except.map]
      | ok bs => simp [Except.map, List.foldl_cons]

theorem worldBounds_error : ∀ (l : List GridPtr) (gp : GridPtr) (e : String),
    gp ∈ l → worldBound gp.grid = Except.error e →
      ∃ e', worldBounds l = Except.error e' := by
  intro l
  induction l with
  | nil => intro gp e hm; simp at hm
  | cons g rest ih =>
    intro gp e hm hwb
    rcases List.mem_cons.mp hm with rfl | hm
    · exact ⟨e, by simp [worldBounds, bind, Except.bind, hwb]⟩
    · cases hg : worldBound g.grid with
      | error e2 => exact ⟨e2, by simp [worldBounds, bind, Except.bind, hg]⟩
      | ok gb =>
        rcases ih gp e hm hwb with ⟨e', he'⟩
        exact ⟨e', by simp [worldBounds, bind, Except.bind, hg, he']⟩

theorem boundAux_append_single : ∀ (l : List GridPtr) (gp : GridPtr) (acc : Option Box3),
    boundAux (l ++ [gp]) acc =
      (boundAux l acc).bind (fun o => (worldBound gp.grid).map (extendBy o)) := by
  intro l gp
  induction l with
  | nil =>
    intro acc
    simp only [List.nil_append, boundAux, bind, Except.bind]
    cases hwb : worldBound gp.grid with
    | error e => simp [Except.map]
    | ok gb => simp [Except.map, boundAux]
  | cons g rest ih =>
    intro acc
    simp only [List.cons_append, boundAux, bind, Except.bind]
    cases hg : worldBound g.grid with
    | error e => simp
    | ok gb => exact ih (extendBy acc gb)

theorem extendBy_of_inside {B gb : Box3} (hin : boxInside gb B) :
    extendBy (some B) gb = some B := by
  rcases hin with ⟨h1, h2, h3, h4, h5, h6⟩
  simp only [extendBy, Option.some.injEq]
  have e1 : min B.bmin.x gb.bmin.x = B.bmin.x := min_eq_left h1
  have e2 : min B.bmin.y gb.bmin.y = B.bmin.y := min_eq_left h2
  have e3 : min B.bmin.z gb.bmin.z = B.bmin.z := min_eq_left h3
  have e4 : max B.bmax.x gb.bmax.x = B.bmax.x := max_eq_left h4
  have e5 : max B.bmax.y gb.bmax.y = B.bmax.y := max_eq_left h5
  have e6 : max B.bmax.z gb.bmax.z = B.bmax.z := max_eq_left h6
  cases B with
  | mk bmn bmx =>
    cases bmn
    cases bmx
    simp_all

/-- The "file_mem_bytes" metadata of a grid pointer, as memoryBuffer reads
it. -/
def memBytesOf (gp : GridPtr) : Option Int :=
  getMetaInt64 gp.grid "file_mem_bytes"

theorem sumMemBytes_ok : ∀ (l : List GridPtr) (acc : Int),
    (∀ gq ∈ l, (memBytesOf gq).isSome) →
      sumMemBytes l acc = (acc + (l.filterMap memBytesOf).sum, false) := by
  intro l
  induction l with
  | nil => intro acc _; simp [sumMemBytes]
  | cons g rest ih =>
    intro acc hall
    have hg := hall g (List.mem_cons_self g rest)
    rcases hm : memBytesOf g with _ | n
    · rw [hm] at hg; simp at hg
    · have hm' : getMetaInt64 g.grid "file_mem_bytes" = some n := hm
      simp only [sumMemBytes, hm']
      rw [ih (acc + n) (fun x hx => hall x (List.mem_cons_of_mem g hx))]
      simp [List.filterMap_cons, hm, List.sum_cons, Int.add_assoc]

theorem sumMemBytes_fail : ∀ (p : List GridPtr) (gp : GridPtr) (s : List GridPtr) (acc : Int),
    (∀ gq ∈ p, (memBytesOf gq).isSome) → memBytesOf gp = none →
      sumMemBytes (p ++ gp :: s) acc = (acc + (p.filterMap memBytesOf).sum, true) := by
  intro p
  induction p with
  | nil =>
    intro gp s acc _ hnone
    have hn : getMetaInt64 gp.grid "file_mem_bytes" = none := hnone
    simp [sumMemBytes, hn]
  | cons g rest ih =>
    intro gp s acc hall hnone
    have hg := hall g (List.mem_cons_self g rest)
    rcases hm : memBytesOf g with _ | n
    · rw [hm] at hg; simp at hg
    · have hm' : getMetaInt64 g.grid "file_mem_bytes" = some n := hm
      simp only [List.cons_append, sumMemBytes, hm']
      simp only [List.append_eq]
      rw [ih gp s (acc + n) (fun x hx => hall x (List.mem_cons_of_mem g hx)) hnone]
      simp [List.filterMap_cons, hm, List.sum_cons, Int.add_assoc]

/-- The result-mapping entry the conversion produces for one metadata
entry: its key paired with the converted value, none when unsupported. -/
def convertedEntry (e : String × MetaValue) : Option (String × CortexData) :=
  (convertMeta e.2).map (fun d => (e.1, d))

/-- The warning one metadata entry produces: some for the unsupported
types, none for the four supported kinds. -/
def warningEntry (e : String × MetaValue) : Option String :=
  match convertMeta e.2 with
  | some _ => none
  | none => some (metaWarning e)

theorem upsert_of_not_mem : ∀ (l : List (String × CortexData)) (k : String) (d : CortexData),
    k ∉ l.map Prod.fst → upsert l k d = l ++ [(k, d)] := by
  intro l k d
  induction l with
  | nil => intro _; rfl
  | cons e rest ih =>
    intro hk
    simp only [List.map_cons, List.mem_cons] at hk
    push_neg at hk
    have h1 : ¬(e.1 = k) := fun he => hk.1 he.symm
    simp only [upsert, if_neg h1, List.cons_append, ih hk.2]

theorem metaFold_eq : ∀ (es : List (String × MetaValue))
    (acc : List (String × CortexData) × List String),
    (es.map Prod.fst).Nodup →
    (∀ k ∈ es.map Prod.fst, k ∉ acc.1.map Prod.fst) →
    es.foldl metaStep acc =
      (acc.1 ++ es.filterMap convertedEntry, acc.2 ++ es.filterMap warningEntry) := by
  intro es
  induction es with
  | nil => intro acc _ _; simp
  | cons e rest ih =>
    intro acc hnd hdis
    have hnd' : (rest.map Prod.fst).Nodup := by
      simp only [List.map_cons, List.nodup_cons] at hnd
      exact hnd.2
    have hhead : e.1 ∉ rest.map Prod.fst := by
      simp only [List.map_cons, List.nodup_cons] at hnd
      exact hnd.1
    cases hc : convertMeta e.2 with
    | some d =>
      have hstep : metaStep acc e = (upsert acc.1 e.1 d, acc.2) := by
        simp [metaStep, hc]
      have hknot : e.1 ∉ acc.1.map Prod.fst :=
        hdis e.1 (by simp)
      rw [List.foldl_cons, hstep, upsert_of_not_mem acc.1 e.1 d hknot]
      rw [ih (acc.1 ++ [(e.1, d)], acc.2) hnd' ?_]
      · have hce : convertedEntry e = some (e.1, d) := by simp [convertedEntry, hc]
        have hwe : warningEntry e = none := by simp [warningEntry, hc]
        simp [List.filterMap_cons, hce, hwe]
      · intro k hk
        simp only [List.map_append, List.mem_append, List.map_cons, List.map_nil,
          List.mem_singleton]
        push_neg
        constructor
        · exact hdis k (by simp [hk])
        · intro he
          exact hhead (he ▸ hk)
    | none =>
      have hstep : metaStep acc e = (acc.1, acc.2 ++ [metaWarning e]) := by
        simp [metaStep, hc]
      rw [List.foldl_cons, hstep]
      rw [ih (acc.1, acc.2 ++ [metaWarning e]) hnd' (fun k hk => hdis k (by simp [hk]))]
      have hce : convertedEntry e = none := by simp [convertedEntry, hc]
      have hwe : warningEntry e = some (metaWarning e) := by simp [warningEntry, hc]
      simp [List.filterMap_cons, hce, hwe]

theorem removeFirst_decomp : ∀ (p : List GridPtr) (old : GridPtr) (t : List GridPtr) (n : String),
    (∀ x ∈ p, x.grid.name ≠ n) → old.grid.name = n →
      removeFirst (p ++ old :: t) n = p ++ t := by
  intro p
  induction p with
  | nil =>
    intro old t n _ hold
    simp [removeFirst, if_pos hold]
  | cons g rest ih =>
    intro old t n hall hold
    have hg : g.grid.name ≠ n := hall g (List.mem_cons_self g rest)
    simp only [List.cons_append, removeFirst, if_neg hg, List.append_eq]
    rw [ih old t n (fun x hx => hall x (List.mem_cons_of_mem g hx)) hold]

/-- Shared fixture: the identity index-to-world transform. -/
def trId : Transform := ⟨⟨1, 1, 1⟩, ⟨0, 0, 0⟩⟩

/-- Shared fixture: a grid with the given name, topology, buffers and
metadata, the identity transform and zeroed statistics. -/
def mkGrid (n : String) (topo buf : List Nat) (meta : List (String × MetaValue)) : Grid :=
  ⟨n, topo, buf, trId, meta, false, ⟨0, 0, 0⟩, ⟨0, 0, 0⟩, 0, 0⟩

/-- C1: VDBObject::isEqualTo is never reflexive — the source negates the
wrong base-class predicate (`!isNotEqualTo`, i.e. base-class equality)
and returns false exactly when the base classes compare equal, so a
collection never compares equal to itself even though the base-class
equality holds and the grid vectors are identical. This refutes the
claimed reflexivity and shows the code contradicts the intended equality
contract. -/
theorem c1_isEqualTo_never_reflexive :
    ∀ v : VDBObject,
      baseIsEqualTo v (IEObject.vdb v) = true
      ∧ v.grids.map GridPtr.addr = v.grids.map GridPtr.addr
      ∧ v.isEqualTo (IEObject.vdb v) = false := by
  intro v
  refine ⟨?_, rfl, ?_⟩
  · simp [baseIsEqualTo]
  · simp [VDBObject.isEqualTo, baseIsNotEqualTo, baseIsEqualTo]

/-- C6: save and load both record the base-class persistence step and then
fail unconditionally with the NotImplementedException signal, for every
object state and context; load never touches the grid sequence. -/
theorem c6_save_load_not_implemented :
    ∀ (v : VDBObject) (ctx : Nat),
      v.save ctx = ([BaseStep.saveBase v.base ctx],
        Except.error (VDBError.notImplemented "VDBObject::save"))
      ∧ (v.load ctx).2 = ([BaseStep.loadBase v.base ctx],
        Except.error (VDBError.notImplemented "VDBObject::load"))
      ∧ ((v.load ctx).1).grids = v.grids :=
  fun _ _ => ⟨rfl, rfl, rfl⟩

/-- C4: copyFrom always applies the base-class copy; for an incompatible
source kind it returns silently with the grids untouched; for a VDBObject
source it appends, without clearing, one deep copy (same grid content,
fresh consecutive addresses at and above the allocation point) of every
source grid. -/
theorem c4_copyFrom_spec :
    (∀ (v : VDBObject) (b alloc : Nat),
        v.copyFrom (IEObject.other b) alloc = { v with base := b })
    ∧ (∀ (v src : VDBObject) (alloc : Nat),
        (v.copyFrom (IEObject.vdb src) alloc).base = src.base
        ∧ (v.copyFrom (IEObject.vdb src) alloc).grids = v.grids ++ deepCopies src.grids alloc
        ∧ (deepCopies src.grids alloc).map GridPtr.grid = src.grids.map GridPtr.grid
        ∧ (deepCopies src.grids alloc).map GridPtr.addr = addrsFrom alloc src.grids.length)
    ∧ (∀ (src : VDBObject) (alloc : Nat) (gp : GridPtr),
        gp ∈ deepCopies src.grids alloc → alloc ≤ gp.addr) := by
  refine ⟨fun v b alloc => rfl, fun v src alloc => ⟨rfl, rfl, ?_, ?_⟩, ?_⟩
  · exact deepCopies_map_grid src.grids alloc
  · exact deepCopies_map_addr src.grids alloc
  · intro src alloc gp hm
    have h1 : gp.addr ∈ (deepCopies src.grids alloc).map GridPtr.addr :=
      List.mem_map_of_mem GridPtr.addr hm
    rw [deepCopies_map_addr] at h1
    exact addrsFrom_ge src.grids.length alloc gp.addr h1

/-- C4 witness: instantiating the freshness conjunct at a one-grid source
with allocation point 5: the single deep copy receives address 5. -/
theorem c4_copyFrom_spec_witness :
    (5 : Nat) ≤ GridPtr.addr ⟨5, mkGrid "g" [1] [] []⟩ :=
  c4_copyFrom_spec.2.2 ⟨3, [⟨0, mkGrid "g" [1] [] []⟩]⟩ 5 ⟨5, mkGrid "g" [1] [] []⟩
    (by decide)

/-- C2 fixtures: two grids with identical topology, buffers and transform
but different names — the hashed stream does not include the name. -/
def grSameA : GridPtr := ⟨0, mkGrid "a" [1] [2] []⟩

def grSameB : GridPtr := ⟨1, mkGrid "b" [1] [2] []⟩

def vPermA : VDBObject := ⟨0, [grSameA, grSameB]⟩

def vPermB : VDBObject := ⟨0, [grSameB, grSameA]⟩

/-- C2 counterexample: the two collections hold the same pairwise distinct
grids (distinct names, distinct pointers) in genuinely different orders,
yet their hashes coincide, because the per-grid digest streams only
topology, buffers and transform — not the name. Permuting distinct grids
therefore does not always change the hash. -/
theorem c2_hash_perm_counterexample :
    vPermB.grids.Perm vPermA.grids
    ∧ vPermA.grids.Nodup
    ∧ vPermA.gridNames.Nodup
    ∧ vPermB.grids ≠ vPermA.grids
    ∧ vPermB.hash [] = vPermA.hash [] := by
  refine ⟨?_, by decide, by decide, by decide, by decide⟩
  exact List.Perm.swap grSameA grSameB []

/-- C2 (amended): hash is deterministic; permuting the grid sequence
changes the hash provided the grids' serialized contents (topology,
buffers, transform — the data actually hashed) are pairwise distinct; and
copyFrom into a fresh empty target yields a hash equal to the source's
hash. -/
theorem c2_hash_amended :
    (∀ (v : VDBObject) (h : List Chunk), v.hash h = v.hash h)
    ∧ (∀ (v v' : VDBObject) (h : List Chunk),
        v'.base = v.base → v'.grids.Perm v.grids → v'.grids ≠ v.grids →
        (v.grids.map serialOf).Nodup →
        v'.hash h ≠ v.hash h)
    ∧ (∀ (src : VDBObject) (alloc : Nat) (h : List Chunk),
        (VDBObject.empty.copyFrom (IEObject.vdb src) alloc).hash h = src.hash h) := by
  refine ⟨fun v h => rfl, ?_, ?_⟩
  · intro v v' h _ hp hne hnod heq
    exact hne (eq_of_perm_serial_eq hp (hash_inj heq).2 hnod)
  · intro src alloc h
    have h1 : (VDBObject.empty.copyFrom (IEObject.vdb src) alloc).base = src.base := rfl
    have h2 : (VDBObject.empty.copyFrom (IEObject.vdb src) alloc).grids
        = deepCopies src.grids alloc := rfl
    rw [hash_trace, hash_trace, h1, h2]
    have h3 : (deepCopies src.grids alloc).map (fun gp => Chunk.digest (serialOf gp))
        = src.grids.map (fun gp => Chunk.digest (serialOf gp)) := by
      have h4 := congrArg (List.map Chunk.digest) (deepCopies_map_serial src.grids alloc)
      simpa [List.map_map, Function.comp] using h4
    rw [h3]

/-- C2 fixtures with pairwise distinct serialized content. -/
def grDistA : GridPtr := ⟨0, mkGrid "a" [1] [] []⟩

def grDistB : GridPtr := ⟨1, mkGrid "b" [2] [] []⟩

def vDistA : VDBObject := ⟨0, [grDistA, grDistB]⟩

def vDistB : VDBObject := ⟨0, [grDistB, grDistA]⟩

/-- C2 witness: the amended order-sensitivity applied to two grids with
distinct topologies — swapping them changes the hash. -/
theorem c2_hash_amended_witness : vDistB.hash [] ≠ vDistA.hash [] :=
  c2_hash_amended.2.1 vDistA vDistB [] rfl (List.Perm.swap grDistA grDistB [])
    (by decide) (by decide)

/-- C3 fixtures: a one-grid collection copied onto itself. -/
def vOneA : VDBObject := VDBObject.empty.insertGrid ⟨0, mkGrid "a" [1] [2] []⟩

def vDupNames : VDBObject := vOneA.copyFrom (IEObject.vdb vOneA) 1

/-- C3 counterexample: a state reachable through the mutating interface
(empty construction, one insertGrid, then copyFrom with that collection as
the source) holds two grids both named "a" — copyFrom appends deep copies
without regard to name collisions, so name uniqueness is not an invariant
preserved by every operation. -/
theorem c3_uniqueness_counterexample :
    Reachable vDupNames ∧ ¬ vDupNames.gridNames.Nodup := by
  constructor
  · exact Reachable.copyVdb 1 (Reachable.insert _ Reachable.empty)
      (Reachable.insert _ Reachable.empty)
  · decide

/-- C3 (amended): name uniqueness holds for every state reachable through
default construction, insertGrid and removeGrid — but not through
copyFrom, which can duplicate names. insertGrid on an existing name keeps
the collection size unchanged, and on a uniquely-named collection the
named grid afterwards is the newly inserted one; removeGrid on an unknown
name is the identity. -/
theorem c3_uniqueness_amended :
    (∀ v : VDBObject, ReachableNoCopy v → v.gridNames.Nodup)
    ∧ (∀ (v : VDBObject) (g : GridPtr), g.grid.name ∈ v.gridNames →
        (v.insertGrid g).grids.length = v.grids.length)
    ∧ (∀ (v : VDBObject) (g : GridPtr), v.gridNames.Nodup →
        (v.insertGrid g).findGrid g.grid.name = some g)
    ∧ (∀ (v : VDBObject) (n : String), n ∉ v.gridNames → v.removeGrid n = v) := by
  refine ⟨?_, ?_, ?_, ?_⟩
  · intro v h
    induction h with
    | empty => decide
    | insert g hv ih => exact insertGrid_nodup _ g ih
    | remove n hv ih => exact removeGrid_nodup _ n ih
  · intro v g hm
    have hm' : g.grid.name ∈ v.grids.map nameOf := hm
    show (removeFirst v.grids g.grid.name ++ [g]).length = v.grids.length
    rw [List.length_append]
    simpa using removeFirst_length v.grids g.grid.name hm'
  · intro v g hnd
    have hnd' : (v.grids.map nameOf).Nodup := hnd
    show findGridAux (removeFirst v.grids g.grid.name ++ [g]) g.grid.name = some g
    rw [findGridAux_append_left]
    · simp [findGridAux]
    · intro x hx he
      have hmem : nameOf x ∈ (removeFirst v.grids g.grid.name).map nameOf :=
        List.mem_map_of_mem nameOf hx
      rw [show nameOf x = g.grid.name from he] at hmem
      exact removeFirst_not_mem_names v.grids g.grid.name hnd' hmem
  · intro v n hm
    have hm' : n ∉ v.grids.map nameOf := hm
    show ({ v with grids := removeFirst v.grids n } : VDBObject) = v
    rw [removeFirst_eq_of_not_mem v.grids n hm']

/-- C3 fixtures for the witness instantiation. -/
def vTwo3 : VDBObject := ⟨0, [⟨0, mkGrid "a" [1] [] []⟩, ⟨1, mkGrid "b" [2] [] []⟩]⟩

def gNew3 : GridPtr := ⟨2, mkGrid "a" [9] [] []⟩

/-- C3 witness: on a concrete two-grid collection, replacing the grid
named "a" keeps the size at two and findGrid afterwards returns the new
grid; removing an unknown name is the identity. -/
theorem c3_uniqueness_amended_witness :
    (vTwo3.insertGrid gNew3).grids.length = vTwo3.grids.length
    ∧ (vTwo3.insertGrid gNew3).findGrid gNew3.grid.name = some gNew3
    ∧ vTwo3.removeGrid "zzz" = vTwo3 :=
  ⟨c3_uniqueness_amended.2.1 vTwo3 gNew3 (by decide),
   c3_uniqueness_amended.2.2.1 vTwo3 gNew3 (by decide),
   c3_uniqueness_amended.2.2.2 vTwo3 "zzz" (by decide)⟩

/-- C5: bound() is exactly the union (iterated extendBy starting from the
empty box) of the per-grid padded world-space bounds; a grid missing the
index-space bounding-box metadata fails its worldBound computation with
an error, and any such per-grid error surfaces from bound(); appending a
grid whose world bound lies inside the current bound leaves bound()
unchanged. -/
theorem c5_bound_spec :
    (∀ v : VDBObject, v.bound = specBound v)
    ∧ (∀ g : Grid, g.meta.lookup "file_bbox_min" = none →
        ∃ e, worldBound g = Except.error e)
    ∧ (∀ (v : VDBObject) (gp : GridPtr) (e : String),
        gp ∈ v.grids → worldBound gp.grid = Except.error e →
        ∃ e', v.bound = Except.error e')
    ∧ (∀ (v : VDBObject) (gp : GridPtr) (B gb : Box3),
        v.bound = Except.ok (some B) → worldBound gp.grid = Except.ok gb →
        boxInside gb B →
        ({ v with grids := v.grids ++ [gp] } : VDBObject).bound = Except.ok (some B)) := by
  refine ⟨?_, ?_, ?_, ?_⟩
  · intro v
    exact boundAux_eq_spec v.grids none
  · intro g hm
    exact ⟨"LookupError: file_bbox_min",
      by simp [worldBound, getMetaVec3i, hm, bind, Except.bind]⟩
  · intro v gp e hmem hwb
    rcases worldBounds_error v.grids gp e hmem hwb with ⟨e', he'⟩
    refine ⟨e', ?_⟩
    have h1 : v.bound = specBound v := boundAux_eq_spec v.grids none
    rw [h1]
    simp [specBound, he', Except.map]
  · intro v gp B gb hB hwb hin
    show boundAux (v.grids ++ [gp]) none = Except.ok (some B)
    rw [boundAux_append_single]
    have hB' : boundAux v.grids none = Except.ok (some B) := hB
    rw [hB', hwb]
    simp [Except.bind, Except.map, extendBy_of_inside hin]

/-- C5 fixtures: a grid whose padded world bound is the box from -1/2 to
5/2 on each axis, and a second grid whose bound lies strictly inside it. -/
def gBig5 : Grid :=
  mkGrid "big" [] [] [("file_bbox_min", MetaValue.vec3i ⟨0, 0, 0⟩),
    ("file_bbox_max", MetaValue.vec3i ⟨2, 2, 2⟩)]

def gSmall5 : Grid :=
  mkGrid "small" [] [] [("file_bbox_min", MetaValue.vec3i ⟨0, 0, 0⟩),
    ("file_bbox_max", MetaValue.vec3i ⟨1, 1, 1⟩)]

def vBound5 : VDBObject := ⟨0, [⟨0, gBig5⟩]⟩

def boxBig5 : Box3 := ⟨⟨-(1/2 : ℚ), -(1/2 : ℚ), -(1/2 : ℚ)⟩, ⟨5/2, 5/2, 5/2⟩⟩

def boxSmall5 : Box3 := ⟨⟨-(1/2 : ℚ), -(1/2 : ℚ), -(1/2 : ℚ)⟩, ⟨3/2, 3/2, 3/2⟩⟩

/-- C5 witness: adding the small grid, whose padded world bound sits
inside the existing bound, leaves bound() unchanged on a concrete
collection. -/
theorem c5_bound_spec_witness :
    ({ vBound5 with grids := vBound5.grids ++ [⟨1, gSmall5⟩] } : VDBObject).bound
      = Except.ok (some boxBig5) := by
  have hs : ("file_bbox_max" == "file_bbox_min") = false := by decide
  have h1 : vBound5.bound = Except.ok (some boxBig5) := by
    norm_num [VDBObject.bound, vBound5, boundAux, worldBound, getMetaVec3i, gBig5, mkGrid,
      trId, indexToWorldBox, mapAxis, boxBig5, extendBy, bind, Except.bind, List.lookup, hs,
      min_def, max_def]
  have h2 : worldBound gSmall5 = Except.ok boxSmall5 := by
    norm_num [worldBound, getMetaVec3i, gSmall5, mkGrid, trId, indexToWorldBox, mapAxis,
      boxSmall5, bind, Except.bind, List.lookup, hs, min_def, max_def]
  have h3 : boxInside boxSmall5 boxBig5 := by
    norm_num [boxInside, boxSmall5, boxBig5]
  exact c5_bound_spec.2.2.2 vBound5 ⟨1, gSmall5⟩ boxBig5 boxSmall5 h1 h2 h3

/-- C7: metadata(name) returns none for an unknown name; for a known name
(the found grid, after the statistics attachment the code performs first,
having uniquely keyed metadata) it returns the mapping holding exactly
the entries of the four supported type kinds with their stored values,
while every other-typed entry is skipped and contributes exactly one
warning. -/
theorem c7_metadata_spec :
    ∀ (v : VDBObject) (name : String),
      (name ∉ v.gridNames → v.metadata name = (none, []))
      ∧ (∀ gp : GridPtr, v.findGrid name = some gp →
          ((addStatsMetadata gp.grid).meta.map Prod.fst).Nodup →
          v.metadata name =
            (some ((addStatsMetadata gp.grid).meta.filterMap convertedEntry),
             (addStatsMetadata gp.grid).meta.filterMap warningEntry)) := by
  intro v name
  constructor
  · intro hnm
    have hf : v.findGrid name = none := by
      show findGridAux v.grids name = none
      exact (findGridAux_eq_none_iff v.grids name).mpr hnm
    simp [VDBObject.metadata, hf]
  · intro gp hf hnd
    have hfold := metaFold_eq (addStatsMetadata gp.grid).meta ([], []) hnd
      (fun k _ hk => by simp at hk)
    simp [VDBObject.metadata, hf, hfold]

/-- C7 fixtures: a grid with one supported (string) entry and one
unsupported (float-tagged) entry. -/
def gMeta7 : Grid :=
  mkGrid "m" [] [] [("foo", MetaValue.str "hi"), ("bar", MetaValue.other "float")]

def vMeta7 : VDBObject := ⟨0, [⟨0, gMeta7⟩]⟩

/-- C7 witness: on the concrete grid the mapping is exactly the supported
entries (the string entry plus the four attached statistics entries) and
the float-tagged entry yields the one warning; an unknown name returns
none. -/
theorem c7_metadata_spec_witness :
    vMeta7.metadata "m" =
      (some ((addStatsMetadata gMeta7).meta.filterMap convertedEntry),
       (addStatsMetadata gMeta7).meta.filterMap warningEntry)
    ∧ vMeta7.metadata "zz" = (none, []) :=
  ⟨(c7_metadata_spec vMeta7 "m").2 ⟨0, gMeta7⟩ (by decide) (by decide),
   (c7_metadata_spec vMeta7 "zz").1 (by decide)⟩

/-- C8: forceRead dereferences findGrid's result unchecked — when the
name is present the error branch is unreachable: forceRead succeeds,
afterwards the named grid is the found grid with all buffers resident and
the name sequence is unchanged; when the name is absent, forceRead is the
fatal null-pointer dereference (modelled as none), not a reported error. -/
theorem c8_forceRead_spec :
    ∀ (v : VDBObject) (name : String),
      (∀ gp : GridPtr, v.findGrid name = some gp →
          v.forceRead name = some { v with grids := markFirstResident v.grids name }
          ∧ ({ v with grids := markFirstResident v.grids name } : VDBObject).findGrid name
              = some ⟨gp.addr, readNonresidentBuffers gp.grid⟩
          ∧ (readNonresidentBuffers gp.grid).buffersResident = true
          ∧ ({ v with grids := markFirstResident v.grids name } : VDBObject).gridNames
              = v.gridNames)
      ∧ (name ∉ v.gridNames → v.forceRead name = none) := by
  intro v name
  constructor
  · intro gp hf
    refine ⟨?_, ?_, rfl, ?_⟩
    · simp [VDBObject.forceRead, hf]
    · exact markFirstResident_find v.grids name gp hf
    · show (markFirstResident v.grids name).map (fun g => g.grid.name)
        = v.grids.map (fun g => g.grid.name)
      exact markFirstResident_names v.grids name
  · intro hnm
    have hf : v.findGrid name = none := by
      show findGridAux v.grids name = none
      exact (findGridAux_eq_none_iff v.grids name).mpr hnm
    simp [VDBObject.forceRead, hf]

/-- C8 fixture. -/
def vForce8 : VDBObject := ⟨0, [⟨0, mkGrid "a" [1] [] []⟩]⟩

/-- C8 witness: forceRead on the present name "a" succeeds, on the absent
name "zz" it is the fatal dereference. -/
theorem c8_forceRead_spec_witness :
    vForce8.forceRead "a" = some { vForce8 with grids := markFirstResident vForce8.grids "a" }
    ∧ vForce8.forceRead "zz" = none :=
  ⟨((c8_forceRead_spec vForce8 "a").1 ⟨0, mkGrid "a" [1] [] []⟩ (by decide)).1,
   (c8_forceRead_spec vForce8 "zz").2 (by decide)⟩

/-- C9 fixtures: the first grid carries the estimate metadata (7 bytes),
the second lacks it, so the estimation loop throws on the second grid
after having accumulated 7. -/
def gEst9 : GridPtr := ⟨0, mkGrid "g1" [3] [] [("file_mem_bytes", MetaValue.int64 7)]⟩

def gNoEst9 : GridPtr := ⟨1, mkGrid "g2" [4] [] []⟩

def vEst9 : VDBObject := ⟨0, [gEst9, gNoEst9]⟩

/-- C9 counterexample: when the estimate fails on the second grid, a
warning is logged, yet the buffer is still pre-reserved with the 7 bytes
accumulated before the failure — not with no pre-reservation as claimed. -/
theorem c9_memoryBuffer_counterexample :
    (vEst9.memoryBuffer).warnings = ["Unable to estimate vdb size."]
    ∧ (vEst9.memoryBuffer).reservedBytes = 7
    ∧ (vEst9.memoryBuffer).reservedBytes ≠ 0 := by
  refine ⟨?_, ?_, ?_⟩ <;> decide

/-- C9 (amended): a failing per-grid size estimate is non-fatal — exactly
one warning is logged and serialization still proceeds, the buffer
contents being the grid-sequence serialization regardless of the estimate
outcome — but the reservation is the partial sum accumulated before the
first failing grid (zero only when the first grid already fails); when
every grid's estimate is readable there is no warning and the reservation
is the full sum. -/
theorem c9_memoryBuffer_amended :
    (∀ v : VDBObject,
        (v.memoryBuffer).bytes = serializeGrids v.grids
        ∧ (v.memoryBuffer).reservedBytes = (sumMemBytes v.grids 0).1)
    ∧ (∀ (v : VDBObject) (p : List GridPtr) (gp : GridPtr) (s : List GridPtr),
        v.grids = p ++ gp :: s → (∀ gq ∈ p, (memBytesOf gq).isSome) →
        memBytesOf gp = none →
        (v.memoryBuffer).warnings = ["Unable to estimate vdb size."]
        ∧ (v.memoryBuffer).reservedBytes = (p.filterMap memBytesOf).sum)
    ∧ (∀ v : VDBObject, (∀ gq ∈ v.grids, (memBytesOf gq).isSome) →
        (v.memoryBuffer).warnings = []
        ∧ (v.memoryBuffer).reservedBytes = (v.grids.filterMap memBytesOf).sum) := by
  refine ⟨fun v => ⟨rfl, rfl⟩, ?_, ?_⟩
  · intro v p gp s hgr hall hnone
    have hsum : sumMemBytes v.grids 0 = (0 + (p.filterMap memBytesOf).sum, true) := by
      rw [hgr]
      exact sumMemBytes_fail p gp s 0 hall hnone
    constructor
    · show (if (sumMemBytes v.grids 0).2 then ["Unable to estimate vdb size."] else [])
        = ["Unable to estimate vdb size."]
      rw [hsum]
      rfl
    · show (sumMemBytes v.grids 0).1 = (p.filterMap memBytesOf).sum
      rw [hsum]
      simp
  · intro v hall
    have hsum : sumMemBytes v.grids 0 = (0 + (v.grids.filterMap memBytesOf).sum, false) :=
      sumMemBytes_ok v.grids 0 hall
    constructor
    · show (if (sumMemBytes v.grids 0).2 then ["Unable to estimate vdb size."] else []) = []
      rw [hsum]
      rfl
    · show (sumMemBytes v.grids 0).1 = (v.grids.filterMap memBytesOf).sum
      rw [hsum]
      simp

/-- C9 witness: the amended partial-reservation clause applied to the
concrete two-grid collection — one warning and a reservation of exactly
the prefix sum read from the first grid. -/
theorem c9_memoryBuffer_amended_witness :
    (vEst9.memoryBuffer).warnings = ["Unable to estimate vdb size."]
    ∧ (vEst9.memoryBuffer).reservedBytes = (([gEst9] : List GridPtr).filterMap memBytesOf).sum :=
  c9_memoryBuffer_amended.2.1 vEst9 [gEst9] gNoEst9 [] rfl (by decide) (by decide)

/-- C10 (amended): insertGrid with a name matching an existing grid does
not replace in place — it erases the first grid of that name and appends
the new grid at the end; when that grid was not last and the names are
pairwise distinct, the order observed by gridNames() changes, and when
additionally the grids' serialized contents are pairwise distinct the
hash changes (grids differing only in name serialize identically, so the
hash-change clause needs the content-distinctness proviso). -/
theorem c10_insert_order_amended :
    ∀ (v : VDBObject) (g old s0 : GridPtr) (p s' : List GridPtr) (h : List Chunk),
      v.grids = p ++ old :: s0 :: s' →
      old.grid.name = g.grid.name →
      v.gridNames.Nodup →
      (v.grids.map serialOf).Nodup →
      (v.insertGrid g).grids = (p ++ (s0 :: s')) ++ [g]
      ∧ (v.insertGrid g).gridNames ≠ v.gridNames
      ∧ (v.insertGrid g).hash h ≠ v.hash h := by
  intro v g old s0 p s' h hdec hname hnodN hnodS
  have hgn : v.gridNames = v.grids.map nameOf := rfl
  have hnodN' : ((p ++ old :: s0 :: s').map nameOf).Nodup := by
    rw [← hdec]
    rw [hgn] at hnodN
    exact hnodN
  rw [List.map_append] at hnodN'
  rcases List.nodup_append.mp hnodN' with ⟨hnp, hnt, hdisj⟩
  have hp : ∀ x ∈ p, x.grid.name ≠ g.grid.name := by
    intro x hx he
    have h1 : nameOf x ∈ p.map nameOf := List.mem_map_of_mem nameOf hx
    have h2 : nameOf x ∉ (old :: s0 :: s').map nameOf := hdisj h1
    apply h2
    have h3 : nameOf x = nameOf old := by
      show x.grid.name = old.grid.name
      rw [he, hname]
    rw [h3]
    exact List.mem_map_of_mem nameOf (List.mem_cons_self old (s0 :: s'))
  have ha : (v.insertGrid g).grids = (p ++ (s0 :: s')) ++ [g] := by
    show removeFirst v.grids g.grid.name ++ [g] = (p ++ (s0 :: s')) ++ [g]
    rw [hdec, removeFirst_decomp p old (s0 :: s') g.grid.name hp hname]
  have hsne : nameOf s0 ≠ nameOf old := by
    simp only [List.map_cons, List.nodup_cons, List.mem_cons] at hnt
    intro he
    exact hnt.1 (Or.inl he.symm)
  refine ⟨ha, ?_, ?_⟩
  · intro heq
    have e1 : (v.insertGrid g).gridNames = ((p ++ (s0 :: s')) ++ [g]).map nameOf := by
      show (v.insertGrid g).grids.map nameOf = _
      rw [ha]
    have e2 : v.gridNames = (p ++ old :: s0 :: s').map nameOf := by
      rw [hgn, hdec]
    rw [e1, e2] at heq
    have heq' : p.map nameOf ++ ((s0 :: s').map nameOf ++ [nameOf g])
        = p.map nameOf ++ (old :: s0 :: s').map nameOf := by
      simpa [List.map_append, List.append_assoc] using heq
    have hc := List.append_cancel_left heq'
    simp only [List.map_cons, List.cons_append, List.cons.injEq] at hc
    exact hsne hc.1
  · intro heq
    have hserial := (hash_inj heq).2
    rw [ha, hdec] at hserial
    have hs' : p.map serialOf ++ ((s0 :: s').map serialOf ++ [serialOf g])
        = p.map serialOf ++ (old :: s0 :: s').map serialOf := by
      simpa [List.map_append, List.append_assoc] using hserial
    have hc := List.append_cancel_left hs'
    simp only [List.map_cons, List.cons_append, List.cons.injEq] at hc
    have hnodS' : ((p ++ old :: s0 :: s').map serialOf).Nodup := by
      rw [← hdec]
      exact hnodS
    rw [List.map_append] at hnodS'
    rcases List.nodup_append.mp hnodS' with ⟨_, hst, _⟩
    simp only [List.map_cons, List.nodup_cons, List.mem_cons] at hst
    exact hst.1 (Or.inl hc.1.symm)

/-- C10 fixtures: two grids named "a" and "b" holding identical topology,
buffers and transform, and a replacement grid for "a" with the same
content at a fresh address. -/
def gOrdA : GridPtr := ⟨0, mkGrid "a" [1] [2] []⟩

def gOrdB : GridPtr := ⟨1, mkGrid "b" [1] [2] []⟩

def gOrdA2 : GridPtr := ⟨2, mkGrid "a" [1] [2] []⟩

def vOrd10 : VDBObject := ⟨0, [gOrdA, gOrdB]⟩

/-- C10 counterexample: replacing the non-last grid "a" changes the
gridNames order, yet the hash is unchanged, because the replacement and
the remaining grid serialize to the same content stream — refuting the
claim that such a replacement always changes the hash. -/
theorem c10_insert_order_counterexample :
    vOrd10.gridNames.Nodup
    ∧ vOrd10.findGrid "a" = some gOrdA
    ∧ (vOrd10.insertGrid gOrdA2).gridNames ≠ vOrd10.gridNames
    ∧ (vOrd10.insertGrid gOrdA2).hash [] = vOrd10.hash [] := by
  refine ⟨?_, ?_, ?_, ?_⟩ <;> decide

/-- C10 fixtures with pairwise distinct serialized content. -/
def gCtA : GridPtr := ⟨0, mkGrid "a" [1] [] []⟩

def gCtB : GridPtr := ⟨1, mkGrid "b" [2] [] []⟩

def gCtA2 : GridPtr := ⟨2, mkGrid "a" [9] [] []⟩

def vCt10 : VDBObject := ⟨0, [gCtA, gCtB]⟩

/-- C10 witness: with distinct names and distinct serialized contents,
replacing the first of two grids moves it to the end — gridNames changes
and the hash changes. -/
theorem c10_insert_order_amended_witness :
    (vCt10.insertGrid gCtA2).gridNames ≠ vCt10.gridNames
    ∧ (vCt10.insertGrid gCtA2).hash [] ≠ vCt10.hash [] := by
  have h := c10_insert_order_amended vCt10 gCtA2 gCtA gCtB [] [] [] rfl rfl
    (by decide) (by decide)
  exact ⟨h.2.1, h.2.2⟩
